import Mathlib

/-!
Shallow embedding of the ColorQuest game-session engine.

The embedded code lives in:
  * `src/unnamed/part_004` — the question dataset, the Fisher-Yates
    `shuffleArray` and `getShuffledQuestions`;
  * `src/src/components/EnhancedGameScreen.jsx` — the multi-mode game screen
    (`initializeGameMode`, `handleSelect`, the countdown effect,
    `saveGameResult` with capacity 50);
  * `src/unnamed/part_001` (GameScreen component) — the legacy game screen
    (`handleSelect`, `saveGameResult` with capacity 10 merging the cached
    `gameHistory` state);
  * `src/src/components/StatisticsPage.jsx` and the history-loading effects —
    `localStorage.getItem` + `JSON.parse` of the persisted history.

Modelling conventions:
  * `Math.random()`-driven draws are passed in as explicit draw functions
    (`rnd : Nat → Nat`); a draw "uniform in [0, i]" is embedded as
    `rnd i % (i + 1)`.
  * The browser's `localStorage` slot for the history key is an
    `Option HistBlob`: `none` for an absent key, `HistBlob.wellFormed l` for a
    stored string that is valid JSON for a result list `l`, and
    `HistBlob.malformed s` for any other stored string.  `JSON.parse` on a
    malformed string throws, which the embedding renders as `Except.error`.
  * Locale-formatted `date`/`time` strings of a result are presentation-only
    and carried as the raw epoch milliseconds used to create them.
  * React state updates are explicit state passing.  `GState` carries the
    one `setTimeout` continuation a single answered question schedules as its
    `pending` field, consumed by `advanceFn`; this reduced capture is exact
    for runs inside one session.  `FState` additionally carries the full list
    of scheduled `setTimeout` callbacks (`timeouts`), with everything each
    one captures from its render closure, because `handleRestart` never
    clears them: a continuation scheduled before a restart can fire into the
    restarted session.
-/

/-- One answer option of a question (`part_004`, `staticQuestions` entries). -/
structure AnswerOption where
  label : String
  image : String
  isCorrect : Bool
deriving DecidableEq, Repr

/-- One color-matching question (`part_004`). -/
structure Question where
  color : String
  options : List AnswerOption
deriving DecidableEq, Repr

/-- The static questions database of `part_004` lines 11-52, verbatim. -/
def staticQuestions : List Question :=
  [ { color := "red",
      options :=
        [ { label := "Apple", image := "/images/apple.png", isCorrect := true },
          { label := "Banana", image := "/images/banana.png", isCorrect := false },
          { label := "Sky", image := "/images/sky.png", isCorrect := false } ] },
    { color := "blue",
      options :=
        [ { label := "Sky", image := "/images/sky.png", isCorrect := true },
          { label := "Lemon", image := "/images/lemon.png", isCorrect := false },
          { label := "Tomato", image := "/images/tomato.png", isCorrect := false } ] },
    { color := "green",
      options :=
        [ { label := "Leaf", image := "/images/leaf.png", isCorrect := true },
          { label := "Sun", image := "/images/sun.png", isCorrect := false },
          { label := "Strawberry", image := "/images/strawberry.png", isCorrect := false } ] },
    { color := "yellow",
      options :=
        [ { label := "Banana", image := "/images/banana.png", isCorrect := true },
          { label := "Grapes", image := "/images/grapes.png", isCorrect := false },
          { label := "Cherry", image := "/images/cherry.png", isCorrect := false } ] },
    { color := "orange",
      options :=
        [ { label := "Carrot", image := "/images/carrot.png", isCorrect := true },
          { label := "Eggplant", image := "/images/eggplant.png", isCorrect := false },
          { label := "Broccoli", image := "/images/broccoli.png", isCorrect := false } ] } ]

/-- The destructuring swap `[a[i], a[j]] = [a[j], a[i]]` of `part_004` line 68.
Out-of-range indices leave the list unchanged (never hit by the loop). -/
def swapList {α : Type} (l : List α) (i j : Nat) : List α :=
  match l[i]?, l[j]? with
  | some x, some y => (l.set i y).set j x
  | _, _ => l

/-- The Fisher-Yates loop of `part_004` lines 66-69: for `i` from the last
index down to `1`, draw `j` uniform in `[0, i]` and swap positions `i` and
`j`.  `rnd` supplies the `Math.random()` draws. -/
def fyLoop {α : Type} (rnd : Nat → Nat) : Nat → List α → List α
  | 0, a => a
  | k + 1, a => fyLoop rnd k (swapList a (k + 1) (rnd (k + 1) % (k + 2)))

/-- `shuffleArray` of `part_004` lines 62-72: copy, then Fisher-Yates. -/
def shuffleArray {α : Type} (rnd : Nat → Nat) (array : List α) : List α :=
  fyLoop rnd (array.length - 1) array

/-- The `.map` body of `getShuffledQuestions` (`part_004` lines 88-91): each
question keeps its properties and gets its options shuffled.  `rndO idx`
supplies the draws consumed by the shuffle of the question at position
`idx`. -/
def shuffleEachOptions (rndO : Nat → Nat → Nat) : Nat → List Question → List Question
  | _, [] => []
  | idx, question :: rest =>
    { question with options := shuffleArray (rndO idx) question.options }
      :: shuffleEachOptions rndO (idx + 1) rest

/-- Shuffle a whole dataset the way `getShuffledQuestions` does: shuffle the
question order, then shuffle each question's options. -/
def shuffleDataset (rndQ : Nat → Nat) (rndO : Nat → Nat → Nat)
    (dataset : List Question) : List Question :=
  shuffleEachOptions rndO 0 (shuffleArray rndQ dataset)

/-- `getShuffledQuestions` of `part_004` lines 81-92, applied to the static
database. -/
def getShuffledQuestions (rndQ : Nat → Nat) (rndO : Nat → Nat → Nat) :
    List Question :=
  shuffleDataset rndQ rndO staticQuestions

/-- `Math.round((score / total) * 100)` on exact nonnegative rationals:
half-up rounding of `100 * score / total`, i.e. `floor(x + 1/2)`. -/
def roundPercentage (score total : Nat) : Nat :=
  (200 * score + total) / (2 * total)

/-- The per-mode settings state of `EnhancedGameScreen.jsx` lines 32-38. -/
structure ModeSettings where
  timeLimit : Option Nat
  showTimer : Bool
  autoAdvance : Bool
  feedbackDuration : Nat
  questionTime : Option Nat
deriving DecidableEq, Repr

/-- The `switch (gameMode)` of `initializeGameMode`
(`EnhancedGameScreen.jsx` lines 41-86), restricted to the `setModeSettings`
calls; every mode other than `timed`, `speed`, `hard` takes the `default`
(classic) branch. -/
def initializeGameMode (gameMode : String) : ModeSettings :=
  if gameMode = "timed" then
    { timeLimit := some 60, showTimer := true, autoAdvance := true,
      feedbackDuration := 1000, questionTime := none }
  else if gameMode = "speed" then
    { timeLimit := none, showTimer := true, autoAdvance := true,
      feedbackDuration := 800, questionTime := none }
  else if gameMode = "hard" then
    { timeLimit := some 90, showTimer := true, autoAdvance := true,
      feedbackDuration := 1200, questionTime := some 15 }
  else
    { timeLimit := none, showTimer := false, autoAdvance := true,
      feedbackDuration := 1800, questionTime := none }

/-- The `setTimeLeft`/`setTotalTime` calls of `initializeGameMode`: `timed`
sets both to 60, `speed` to 0, `hard` to 90; the `default` branch leaves them
untouched (`none` here). -/
def modeTimerReset (gameMode : String) : Option (Nat × Nat) :=
  if gameMode = "timed" then some (60, 60)
  else if gameMode = "speed" then some (0, 0)
  else if gameMode = "hard" then some (90, 90)
  else none

/-- A persisted game result.  Fields follow the `gameResult` object literal of
`EnhancedGameScreen.jsx` lines 93-103 (the legacy GameScreen writes the subset
without `gameMode`/`duration`/`timeBonus`); `dateMs` stands for the epoch
instant whose locale-formatted `date`/`time` strings the source stores. -/
structure GameResult where
  id : Nat
  score : Nat
  totalQuestions : Nat
  percentage : Nat
  dateMs : Nat
  gameMode : String
  duration : Nat
  timeBonus : Nat
deriving DecidableEq, Repr

/-- The string stored under the history key, as `JSON.parse` sees it: either
valid JSON text denoting a result list, or any other (malformed) text. -/
inductive HistBlob : Type where
  | wellFormed (parsed : List GameResult) : HistBlob
  | malformed (raw : String) : HistBlob
deriving DecidableEq, Repr

/-- The history-reading pattern shared by the GameScreen history effect
(`part_001` lines 195-200), `StatisticsPage.jsx` lines 26-33 and the read in
`saveGameResult` (`EnhancedGameScreen.jsx` lines 105-106):
`localStorage.getItem` followed by a truthiness test and `JSON.parse`.
An absent key (and the falsy empty string) yields the empty list; a present
malformed string makes `JSON.parse` throw, i.e. `Except.error`. -/
def loadHistory : Option HistBlob → Except String (List GameResult)
  | none => Except.ok []
  | some (HistBlob.wellFormed parsed) => Except.ok parsed
  | some (HistBlob.malformed raw) =>
    if raw = "" then Except.ok [] else Except.error raw

/-- The merge-and-truncate step `[gameResult, ...history].slice(0, cap)`
shared by both `saveGameResult` implementations (cap 50 in
`EnhancedGameScreen.jsx` line 107, cap 10 in `part_001` line 241). -/
def appendCapped {α : Type} (cap : Nat) (r : α) (h : List α) : List α :=
  (r :: h).take cap

/-- The storage effect of `saveGameResult` in `EnhancedGameScreen.jsx` lines
105-109: re-read and parse the persisted history, prepend the new result,
truncate to 50, write back.  A parse failure propagates as an exception. -/
def saveResultEnhancedStore (store : Option HistBlob) (r : GameResult) :
    Except String (Option HistBlob) :=
  (loadHistory store).map fun history =>
    some (HistBlob.wellFormed (appendCapped 50 r history))

/-- The storage effect of `saveGameResult` in the legacy GameScreen
(`part_001` lines 229-244): merge the new result into the cached `gameHistory`
state, truncate to 10, overwrite the persisted value.  Returns the new cached
state and the written blob; the previously persisted value is never read. -/
def saveResultGameScreenStore (gameHistory : List GameResult) (r : GameResult) :
    List GameResult × Option HistBlob :=
  let updatedHistory := appendCapped 10 r gameHistory
  (updatedHistory, some (HistBlob.wellFormed updatedHistory))

/-- The values the `setTimeout` continuation of `handleSelect` captures from
its closure (`EnhancedGameScreen.jsx` lines 173-188): the correctness of the
answer just chosen and the `score` state as it was when the answer was chosen
(React state writes do not change the closure's variables). -/
structure PendingAdvance where
  isCorrect : Bool
  score : Nat
deriving DecidableEq, Repr

/-- The state of the `EnhancedGameScreen` component: its `useState` cells
(lines 17-38), the persisted history slot it reads and writes (in parsed
form), the pending auto-advance continuation, and the ambient clock values
(`Date.now()` at mount and at save). -/
structure GState where
  questions : List Question
  currentIndex : Nat
  score : Nat
  selectedOption : Option Nat
  isFinished : Bool
  feedback : String
  showFeedback : Bool
  isTransitioning : Bool
  pending : Option PendingAdvance
  modeSettings : ModeSettings
  timeLeft : Nat
  totalTime : Nat
  gameMode : String
  gameStartTime : Option Nat
  nowMs : Nat
  history : List GameResult
deriving DecidableEq, Repr

/-- The mode-initialization effect (`initializeGameMode` lines 41-86): store
the resolved settings and apply the per-mode `setTimeLeft`/`setTotalTime`. -/
def applyModeInit (s : GState) : GState :=
  let s1 := { s with modeSettings := initializeGameMode s.gameMode }
  match modeTimerReset s.gameMode with
  | some (tl, tt) => { s1 with timeLeft := tl, totalTime := tt }
  | none => s1

/-- A freshly mounted session (`EnhancedGameScreen.jsx` lines 17-38 initial
`useState` values and the mount effect of lines 113-117) holding question list
`qs`, with starting history slot `h0`, mounted at epoch `t0` and saving at
epoch `tNow`. -/
def mkSessionState (qs : List Question) (mode : String) (h0 : List GameResult)
    (t0 tNow : Nat) : GState :=
  applyModeInit
    { questions := qs, currentIndex := 0, score := 0, selectedOption := none,
      isFinished := false, feedback := "", showFeedback := false,
      isTransitioning := false, pending := none,
      modeSettings :=
        { timeLimit := none, showTimer := false, autoAdvance := true,
          feedbackDuration := 1800, questionTime := none },
      timeLeft := 0, totalTime := 0, gameMode := mode,
      gameStartTime := some t0, nowMs := tNow, history := h0 }

/-- A session as the component actually creates it: the questions come from
`getShuffledQuestions()` (mount effect, line 115). -/
def initSessionState (rndQ : Nat → Nat) (rndO : Nat → Nat → Nat)
    (mode : String) (h0 : List GameResult) (t0 tNow : Nat) : GState :=
  mkSessionState (getShuffledQuestions rndQ rndO) mode h0 t0 tNow

/-- The `gameResult` object literal of `saveGameResult`
(`EnhancedGameScreen.jsx` lines 90-103), as a function of the values it
reads: the save-time clock, the mode, the session start time, and the
question count. -/
def mkGameResultAt (nowMs : Nat) (gameMode : String) (gameStartTime : Option Nat)
    (total finalScore : Nat) : GameResult :=
  let duration := match gameStartTime with
    | some t0 => (nowMs - t0) / 1000
    | none => 0
  { id := nowMs,
    score := finalScore,
    totalQuestions := total,
    percentage := roundPercentage finalScore total,
    dateMs := nowMs,
    gameMode := gameMode,
    duration := duration,
    -- Math.max(0, 300 - duration): Nat subtraction already truncates at 0
    timeBonus := if gameMode = "speed" then 300 - duration else 0 }

/-- The same object literal read off the enclosing component state. -/
def mkGameResult (s : GState) (finalScore : Nat) : GameResult :=
  mkGameResultAt s.nowMs s.gameMode s.gameStartTime s.questions.length finalScore

/-- A click on answer option `optionIndex` (`EnhancedGameScreen.jsx` lines
161-171 plus the rendering guards): no option buttons exist on the finished
screen (line 226) or the loading screen (line 149), and every button carries
`disabled` once `selectedOption` is set (line 387), so those cases are
no-ops.  Otherwise the handler records the selection, bumps the score on a
correct answer, shows the feedback and schedules the auto-advance
continuation with the closure's `isCorrect` and `score`. -/
def handleSelect (optionIndex : Nat) (s : GState) : GState :=
  if s.isFinished then s
  else
    match s.questions[s.currentIndex]? with
    | none => s
    | some q =>
      if s.selectedOption.isSome then s
      else
        match q.options[optionIndex]? with
        | none => s
        | some opt =>
          { s with
            selectedOption := some optionIndex,
            score := if opt.isCorrect then s.score + 1 else s.score,
            feedback := if opt.isCorrect then "Correct! Amazing!"
                        else "Wrong Answer!",
            showFeedback := true,
            pending := some { isCorrect := opt.isCorrect, score := s.score } }

/-- The scheduled continuation of `handleSelect` firing
(`EnhancedGameScreen.jsx` lines 173-188): with no continuation scheduled this
is a no-op; otherwise the outer timeout starts the transition and the inner
one either moves to the next question or computes
`finalScore = isCorrect ? score + 1 : score` from the captured closure
values, persists it via `saveGameResult` and finishes the session. -/
def advanceFn (s : GState) : GState :=
  match s.pending with
  | none => s
  | some p =>
    if s.currentIndex + 1 < s.questions.length then
      { s with
        currentIndex := s.currentIndex + 1, feedback := "",
        showFeedback := false, isTransitioning := false,
        selectedOption := none, pending := none }
    else
      let finalScore := if p.isCorrect then p.score + 1 else p.score
      { s with
        isTransitioning := true,
        history := appendCapped 50 (mkGameResult s finalScore) s.history,
        isFinished := true, pending := none }

/-- One firing of the countdown interval (`EnhancedGameScreen.jsx` lines
120-134): armed only while a time limit is set, `timeLeft > 0` and the
session is not finished; a tick from `timeLeft <= 1` forces the finish and
clamps the clock to 0, any other tick decrements the clock. -/
def tickFn (s : GState) : GState :=
  if s.modeSettings.timeLimit.isSome && decide (0 < s.timeLeft)
      && !s.isFinished then
    if s.timeLeft ≤ 1 then { s with isFinished := true, timeLeft := 0 }
    else { s with timeLeft := s.timeLeft - 1 }
  else s

/-- An answered question as the UI drives it: the click, then the scheduled
auto-advance firing after the feedback delay. -/
def playRound (optionIndex : Nat) (s : GState) : GState :=
  advanceFn (handleSelect optionIndex s)

/-- A whole session: one `playRound` per chosen option index. -/
def runSession (choices : List Nat) (s : GState) : GState :=
  choices.foldl (fun acc i => playRound i acc) s

/-- `n` firings of the countdown interval. -/
def ticks : Nat → GState → GState
  | 0, s => s
  | n + 1, s => ticks n (tickFn s)

/-- `choices` are clickable one per remaining question starting at `idx`:
each names an existing option button of the corresponding question. -/
def validChoicesB (qs : List Question) : Nat → List Nat → Bool
  | _, [] => true
  | idx, i :: rest =>
    (match qs[idx]? with
     | some q => decide (i < q.options.length)
     | none => false) && validChoicesB qs (idx + 1) rest

/-- How many of the `choices`, clicked one per question starting at `idx`,
land on an option with `isCorrect` set. -/
def countCorrect (qs : List Question) : Nat → List Nat → Nat
  | _, [] => 0
  | idx, i :: rest =>
    (match qs[idx]? with
     | some q =>
       match q.options[i]? with
       | some opt => if opt.isCorrect then 1 else 0
       | none => 0
     | none => 0) + countCorrect qs (idx + 1) rest

/-! ### Helper lemmas -/

theorem applyModeInit_questions (s : GState) :
    (applyModeInit s).questions = s.questions := by
  unfold applyModeInit; split <;> rfl

theorem applyModeInit_currentIndex (s : GState) :
    (applyModeInit s).currentIndex = s.currentIndex := by
  unfold applyModeInit; split <;> rfl

theorem applyModeInit_score (s : GState) :
    (applyModeInit s).score = s.score := by
  unfold applyModeInit; split <;> rfl

theorem applyModeInit_selectedOption (s : GState) :
    (applyModeInit s).selectedOption = s.selectedOption := by
  unfold applyModeInit; split <;> rfl

theorem applyModeInit_isFinished (s : GState) :
    (applyModeInit s).isFinished = s.isFinished := by
  unfold applyModeInit; split <;> rfl

theorem applyModeInit_pending (s : GState) :
    (applyModeInit s).pending = s.pending := by
  unfold applyModeInit; split <;> rfl

theorem applyModeInit_history (s : GState) :
    (applyModeInit s).history = s.history := by
  unfold applyModeInit; split <;> rfl

theorem applyModeInit_nowMs (s : GState) :
    (applyModeInit s).nowMs = s.nowMs := by
  unfold applyModeInit; split <;> rfl

theorem applyModeInit_gameMode (s : GState) :
    (applyModeInit s).gameMode = s.gameMode := by
  unfold applyModeInit; split <;> rfl

theorem applyModeInit_gameStartTime (s : GState) :
    (applyModeInit s).gameStartTime = s.gameStartTime := by
  unfold applyModeInit; split <;> rfl

/-! ### C7: the mode resolver table -/

/-- C7: the mode resolver is a pure function of the mode identifier realizing
exactly the fixed table — classic: no time limit, timer hidden, feedback
1800 ms; timed: 60 s limit (countdown), timer shown, feedback 1000 ms;
speed: no limit (the count-up effect is keyed on the `speed` mode), timer
shown, feedback 800 ms; hard: 90 s limit (countdown), timer shown, feedback
1200 ms — and every unknown mode identifier resolves to the classic
profile. -/
theorem c7_mode_resolver_table :
    initializeGameMode "classic" =
      { timeLimit := none, showTimer := false, autoAdvance := true,
        feedbackDuration := 1800, questionTime := none } ∧
    initializeGameMode "timed" =
      { timeLimit := some 60, showTimer := true, autoAdvance := true,
        feedbackDuration := 1000, questionTime := none } ∧
    initializeGameMode "speed" =
      { timeLimit := none, showTimer := true, autoAdvance := true,
        feedbackDuration := 800, questionTime := none } ∧
    initializeGameMode "hard" =
      { timeLimit := some 90, showTimer := true, autoAdvance := true,
        feedbackDuration := 1200, questionTime := some 15 } ∧
    ∀ mode : String, mode ≠ "timed" → mode ≠ "speed" → mode ≠ "hard" →
      initializeGameMode mode = initializeGameMode "classic" := by
  refine ⟨by decide, by decide, by decide, by decide, ?_⟩
  intro mode h1 h2 h3
  simp [initializeGameMode, h1, h2, h3]

/-! ### C2: a second selection is a no-op -/

/-- C2: while an option is already selected for the current question (state
`AnswerRevealed`), every further `selectAnswer` call is a no-op — the option
buttons carry `disabled` once `selectedOption` is set, so a second click
changes no session state at all. -/
theorem c2_second_select_noop (s : GState) (i : Nat)
    (h : s.selectedOption.isSome = true) : handleSelect i s = s := by
  unfold handleSelect
  cases hf : s.isFinished with
  | true => rfl
  | false =>
    cases hq : s.questions[s.currentIndex]? with
    | none => rfl
    | some q => simp [h]

/-- C2 witness: after selecting option 0 of the first question of a fresh
classic session, selecting option 1 changes nothing. -/
theorem c2_second_select_noop_witness :
    handleSelect 1 (handleSelect 0 (mkSessionState staticQuestions "classic" [] 0 0)) =
      handleSelect 0 (mkSessionState staticQuestions "classic" [] 0 0) :=
  c2_second_select_noop (handleSelect 0 (mkSessionState staticQuestions "classic" [] 0 0)) 1
    (by decide)

/-! ### C10: a countdown tick never touches the history -/

/-- C10: the countdown effect only rewrites `timeLeft` and `isFinished`; in
particular, when its reaching zero forces the session into `Finished`, no
`SessionResult` is created or appended — the persisted history is unchanged
by every tick, the expiring one included. -/
theorem c10_tick_preserves_history (s : GState) :
    (tickFn s).history = s.history := by
  unfold tickFn
  split
  · split <;> rfl
  · rfl

/-! ### C3: loading a corrupted history -/

/-- C3 counterexample: `JSON.parse` of a persisted string that is not valid
JSON is unguarded in every load site, so the load raises instead of
returning the empty sequence. -/
theorem c3_load_counterexample :
    loadHistory (some (HistBlob.malformed "corrupted")) =
      Except.error "corrupted" := rfl

/-- C3 (amended): `load` returns the deserialized sequence when the blob
parses and the empty sequence when the persisted value is absent (or the
falsy empty string); but a present, non-empty, non-JSON string makes the
unguarded `JSON.parse` throw, and the error propagates to the caller. -/
theorem c3_load_amended :
    loadHistory none = Except.ok [] ∧
    (∀ parsed : List GameResult,
      loadHistory (some (HistBlob.wellFormed parsed)) = Except.ok parsed) ∧
    (∀ raw : String, raw ≠ "" →
      loadHistory (some (HistBlob.malformed raw)) = Except.error raw) := by
  refine ⟨rfl, fun parsed => rfl, fun raw h => ?_⟩
  simp [loadHistory, h]

/-! ### C4: capped append -/

theorem take_append_take {α : Type} (A x : List α) (cap : Nat) :
    (A ++ x.take cap).take cap = (A ++ x).take cap := by
  rw [List.take_append_eq_append_take, List.take_append_eq_append_take,
    List.take_take, Nat.min_eq_left (Nat.sub_le _ _)]

theorem foldl_appendCapped {α : Type} (cap : Nat) :
    ∀ (rs h : List α), rs ≠ [] →
      rs.foldl (fun acc r => appendCapped cap r acc) h =
        (rs.reverse ++ h).take cap := by
  intro rs
  induction rs with
  | nil => intro h hne; exact absurd rfl hne
  | cons r rest ih =>
    intro h _
    cases rest with
    | nil => simp [appendCapped]
    | cons r2 rest2 =>
      rw [List.foldl_cons, ih (appendCapped cap r h) (by simp)]
      conv_rhs => rw [List.reverse_cons, List.append_assoc, List.singleton_append]
      exact take_append_take _ _ _

/-- C4: `append` prepends the new result and truncates to the configured
capacity; 11 appends on the store capped at 10 (the legacy GameScreen store)
leave exactly the 10 most recent results, newest first. -/
theorem c4_append_capacity :
    (∀ (α : Type) (cap : Nat) (r : α) (h : List α),
      appendCapped cap r h = (r :: h).take cap) ∧
    (∀ (α : Type) (h rs : List α), rs.length = 11 →
      rs.foldl (fun acc r => appendCapped 10 r acc) h = rs.reverse.take 10 ∧
      (rs.reverse.take 10).length = 10) := by
  refine ⟨fun α cap r h => rfl, fun α h rs hlen => ⟨?_, ?_⟩⟩
  · have hne : rs ≠ [] := by
      intro hcon; rw [hcon] at hlen; simp at hlen
    rw [foldl_appendCapped 10 rs h hne,
      List.take_append_of_le_length (by simp [hlen])]
  · simp [hlen]

/-! ### C5: lost updates between the two append implementations -/

/-- A first result, as the finished session of a perfect game saves it. -/
def resultA : GameResult :=
  { id := 1, score := 5, totalQuestions := 5, percentage := 100, dateMs := 1,
    gameMode := "classic", duration := 10, timeBonus := 0 }

/-- A second result, saved in the same tick as `resultA`. -/
def resultB : GameResult :=
  { id := 2, score := 4, totalQuestions := 5, percentage := 80, dateMs := 2,
    gameMode := "classic", duration := 12, timeBonus := 0 }

/-- C5 counterexample: the legacy GameScreen `saveGameResult` merges the
cached `gameHistory` state instead of re-reading the persisted value.  Two
appends in the same tick (both seeing the cached snapshot `[]`) leave the
persisted history holding only the second result: the first is lost, so not
every append reads the latest persisted value before merging. -/
theorem c5_lost_update_counterexample :
    (saveResultGameScreenStore [] resultA).2 =
      some (HistBlob.wellFormed [resultA]) ∧
    (saveResultGameScreenStore [] resultB).2 =
      some (HistBlob.wellFormed [resultB]) ∧
    loadHistory (saveResultGameScreenStore [] resultB).2 =
      Except.ok [resultB] ∧
    resultA ∉ [resultB] := by
  refine ⟨rfl, rfl, rfl, ?_⟩
  decide

/-- C5 (amended): the `EnhancedGameScreen` append re-reads the persisted
value immediately before merging, so two consecutive appends keep both new
results; the legacy GameScreen append instead merges the cached in-memory
state and overwrites the persisted value, so its write is a function of the
cache alone and a second same-tick append drops the first result unless it
already sat in the cache. -/
theorem c5_append_freshness_amended :
    (∀ (store : Option HistBlob) (l : List GameResult) (r1 r2 : GameResult),
      loadHistory store = Except.ok l →
      ∃ l2 : List GameResult,
        ((saveResultEnhancedStore store r1).bind
          fun s1 => saveResultEnhancedStore s1 r2) =
            Except.ok (some (HistBlob.wellFormed l2)) ∧
        r1 ∈ l2 ∧ r2 ∈ l2) ∧
    (∀ (cached : List GameResult) (r1 r2 : GameResult),
      (saveResultGameScreenStore cached r2).2 =
        some (HistBlob.wellFormed (appendCapped 10 r2 cached)) ∧
      (r1 ∉ cached → r1 ≠ r2 → r1 ∉ appendCapped 10 r2 cached)) := by
  constructor
  · intro store l r1 r2 hload
    refine ⟨appendCapped 50 r2 (appendCapped 50 r1 l), ?_, ?_, ?_⟩
    · have h1 : saveResultEnhancedStore store r1 =
          Except.ok (some (HistBlob.wellFormed (appendCapped 50 r1 l))) := by
        unfold saveResultEnhancedStore; rw [hload]; rfl
      rw [h1]; rfl
    · show r1 ∈ (r2 :: (r1 :: l).take 50).take 50
      rw [List.take_succ_cons]
      refine List.mem_cons_of_mem _ ?_
      rw [List.take_take]
      norm_num
    · show r2 ∈ (r2 :: (r1 :: l).take 50).take 50
      rw [List.take_succ_cons]
      exact List.mem_cons_self _ _
  · intro cached r1 r2
    refine ⟨rfl, fun hnc hne hmem => ?_⟩
    rcases List.mem_cons.mp (List.take_subset _ _ hmem) with h | h
    · exact hne h
    · exact hnc h

/-! ### C8: countdown decrement and forced finish -/

set_option maxRecDepth 10000 in
/-- C8: with a time limit set and the session not finished, every tick of
the countdown interval decrements the clock by one second; the tick that
exhausts the clock instead forces an immediate transition to `Finished`
(with the clock clamped to 0), with no condition whatsoever on the current
question index; and in `timed` mode (60 s limit) with zero answers
submitted, 60 simulated seconds finish the session with score 0. -/
theorem c8_countdown_behaviour :
    (∀ s : GState, s.modeSettings.timeLimit.isSome = true →
      s.isFinished = false → 1 < s.timeLeft →
      tickFn s = { s with timeLeft := s.timeLeft - 1 }) ∧
    (∀ s : GState, s.modeSettings.timeLimit.isSome = true →
      s.isFinished = false → s.timeLeft = 1 →
      tickFn s = { s with isFinished := true, timeLeft := 0 }) ∧
    (ticks 60 (initSessionState (fun i => i) (fun _ i => i) "timed" [] 0 0)).isFinished
      = true ∧
    (ticks 60 (initSessionState (fun i => i) (fun _ i => i) "timed" [] 0 0)).score
      = 0 := by
  refine ⟨?_, ?_, by decide, by decide⟩
  · intro s h1 h2 h3
    have h0 : 0 < s.timeLeft := Nat.lt_of_succ_lt h3
    unfold tickFn
    rw [h1, h2]
    simp only [Bool.not_false, Bool.and_true, decide_eq_true (h0), Bool.and_self,
      if_true]
    rw [if_neg (by omega)]
  · intro s h1 h2 h3
    unfold tickFn
    rw [h1, h2, h3]
    rfl

set_option maxRecDepth 10000 in
/-- C8 witness: the decrement and forced-finish clauses evaluated on
concrete states — one tick of a fresh `hard` session (90 s) leaves 89 s, and
one tick of a `timed` session down to its last second finishes it. -/
theorem c8_countdown_behaviour_witness :
    tickFn (initSessionState (fun i => i) (fun _ i => i) "hard" [] 0 0) =
      { initSessionState (fun i => i) (fun _ i => i) "hard" [] 0 0 with
        timeLeft := 90 - 1 } ∧
    tickFn (ticks 59 (initSessionState (fun i => i) (fun _ i => i) "timed" [] 0 0)) =
      { ticks 59 (initSessionState (fun i => i) (fun _ i => i) "timed" [] 0 0) with
        isFinished := true, timeLeft := 0 } :=
  ⟨c8_countdown_behaviour.1 _ (by decide) (by decide) (by decide),
   c8_countdown_behaviour.2.1 _ (by decide) (by decide) (by decide)⟩


/-! ### C6: shuffle preserves the question and option multisets -/

theorem cons_set_perm {α : Type} :
    ∀ (xs : List α) (j : Nat) (x y : α), xs[j]? = some y →
      (y :: xs.set j x).Perm (x :: xs) := by
  intro xs
  induction xs with
  | nil => intro j x y h; simp at h
  | cons z t ih =>
    intro j x y h
    cases j with
    | zero =>
      simp only [List.getElem?_cons_zero, Option.some.injEq] at h
      subst h
      simpa using List.Perm.swap x z t
    | succ j =>
      simp only [List.getElem?_cons_succ] at h
      have h1 : (y :: t.set j x).Perm (x :: t) := ih j x y h
      simp only [List.set_cons_succ]
      exact ((List.Perm.swap z y _).trans (List.Perm.cons z h1)).trans
        (List.Perm.swap x z t)

theorem swapList_perm {α : Type} (l : List α) :
    ∀ (i j : Nat), (swapList l i j).Perm l := by
  induction l with
  | nil => intro i j; unfold swapList; simp
  | cons a t ih =>
    intro i j
    cases i with
    | zero =>
      cases j with
      | zero => unfold swapList; simp
      | succ j =>
        cases hj : t[j]? with
        | none => unfold swapList; simp [hj]
        | some y =>
          unfold swapList
          simp only [List.getElem?_cons_zero, List.getElem?_cons_succ, hj,
            List.set_cons_zero, List.set_cons_succ]
          exact cons_set_perm t j a y hj
    | succ i =>
      cases j with
      | zero =>
        cases hi : t[i]? with
        | none => unfold swapList; simp [hi]
        | some x =>
          unfold swapList
          simp only [List.getElem?_cons_zero, List.getElem?_cons_succ, hi,
            List.set_cons_zero, List.set_cons_succ]
          exact cons_set_perm t i a x hi
      | succ j =>
        have inner := ih i j
        unfold swapList at inner ⊢
        cases hi : t[i]? with
        | none => simp [hi]
        | some x =>
          cases hj : t[j]? with
          | none => simp [hi, hj]
          | some y =>
            simp only [hi, hj] at inner
            simp only [List.getElem?_cons_succ, hi, hj, List.set_cons_succ]
            exact List.Perm.cons a inner

theorem fyLoop_perm {α : Type} (rnd : Nat → Nat) :
    ∀ (k : Nat) (a : List α), (fyLoop rnd k a).Perm a := by
  intro k
  induction k with
  | zero => intro a; exact List.Perm.refl a
  | succ k ih =>
    intro a
    exact (ih _).trans (swapList_perm a (k + 1) (rnd (k + 1) % (k + 2)))

theorem shuffleArray_perm {α : Type} (rnd : Nat → Nat) (array : List α) :
    (shuffleArray rnd array).Perm array :=
  fyLoop_perm rnd (array.length - 1) array

/-- A question up to the order of its options: its color paired with its
multiset of options. -/
def questionKey (q : Question) : String × Multiset AnswerOption :=
  (q.color, (q.options : Multiset AnswerOption))

theorem shuffleEachOptions_map_key (rndO : Nat → Nat → Nat) :
    ∀ (idx : Nat) (qs : List Question),
      (shuffleEachOptions rndO idx qs).map questionKey = qs.map questionKey := by
  intro idx qs
  induction qs generalizing idx with
  | nil => rfl
  | cons q rest ih =>
    show questionKey { q with options := shuffleArray (rndO idx) q.options }
        :: (shuffleEachOptions rndO (idx + 1) rest).map questionKey
      = questionKey q :: rest.map questionKey
    rw [ih (idx + 1)]
    have hopt : (shuffleArray (rndO idx) q.options : Multiset AnswerOption) =
        (q.options : Multiset AnswerOption) :=
      Multiset.coe_eq_coe.mpr (shuffleArray_perm (rndO idx) q.options)
    unfold questionKey
    rw [hopt]

/-- C6: for every non-empty dataset, the shuffle returns the same multiset
of questions (a question compared via `questionKey`, i.e. up to the order of
its options) and within each question the same multiset of options; length
is preserved as well.  The embedding is pure, mirroring the source's copy
semantics (`[...array]`): the input dataset itself is untouched. -/
theorem c6_shuffle_preserves_multisets (rndQ : Nat → Nat) (rndO : Nat → Nat → Nat)
    (dataset : List Question) (hne : dataset ≠ []) :
    ((shuffleDataset rndQ rndO dataset).map questionKey).Perm
      (dataset.map questionKey) ∧
    (shuffleDataset rndQ rndO dataset).length = dataset.length := by
  have hperm : ((shuffleDataset rndQ rndO dataset).map questionKey).Perm
      (dataset.map questionKey) := by
    unfold shuffleDataset
    rw [shuffleEachOptions_map_key]
    exact List.Perm.map questionKey (shuffleArray_perm rndQ dataset)
  refine ⟨hperm, ?_⟩
  have := hperm.length_eq
  simpa using this

/-- C6 witness: shuffling the static dataset with concrete draw functions
keeps the question/option multisets and the length. -/
theorem c6_shuffle_preserves_multisets_witness :
    ((shuffleDataset (fun _ => 0) (fun _ _ => 0) staticQuestions).map
        questionKey).Perm (staticQuestions.map questionKey) ∧
    (shuffleDataset (fun _ => 0) (fun _ _ => 0) staticQuestions).length =
      staticQuestions.length :=
  c6_shuffle_preserves_multisets (fun _ => 0) (fun _ _ => 0) staticQuestions
    (by decide)

/-! ### C9: session invariants -/

theorem shuffleEachOptions_length (rndO : Nat → Nat → Nat) (idx : Nat)
    (qs : List Question) :
    (shuffleEachOptions rndO idx qs).length = qs.length := by
  have h := congrArg List.length (shuffleEachOptions_map_key rndO idx qs)
  simpa using h

theorem getShuffledQuestions_length (rndQ : Nat → Nat) (rndO : Nat → Nat → Nat) :
    (getShuffledQuestions rndQ rndO).length = 5 := by
  unfold getShuffledQuestions shuffleDataset
  rw [shuffleEachOptions_length,
    (shuffleArray_perm rndQ staticQuestions).length_eq]
  rfl

/-! ### C1: the persisted final score -/

/-- Computation rule for `advanceFn` once a continuation is scheduled. -/
theorem advanceFn_eq (s : GState) (p : PendingAdvance) (hp : s.pending = some p) :
    advanceFn s =
      if s.currentIndex + 1 < s.questions.length then
        { s with
          currentIndex := s.currentIndex + 1,
          feedback := "",
          showFeedback := false,
          isTransitioning := false,
          selectedOption := none,
          pending := none }
      else
        { s with
          isTransitioning := true,
          history := appendCapped 50
            (mkGameResult s (if p.isCorrect then p.score + 1 else p.score))
            s.history,
          isFinished := true,
          pending := none } := by
  unfold advanceFn; rw [hp]

/-- Computation rule for `handleSelect` on an active question with an
existing option button. -/
theorem handleSelect_eq (s : GState) (i : Nat) (q : Question) (opt : AnswerOption)
    (hfin : s.isFinished = false) (hq : s.questions[s.currentIndex]? = some q)
    (hsel : s.selectedOption = none) (hopt : q.options[i]? = some opt) :
    handleSelect i s =
      { s with
        selectedOption := some i,
        score := if opt.isCorrect then s.score + 1 else s.score,
        feedback := if opt.isCorrect then "Correct! Amazing!"
                    else "Wrong Answer!",
        showFeedback := true,
        pending := some { isCorrect := opt.isCorrect, score := s.score } } := by
  unfold handleSelect
  simp only [hfin, hq, hsel, hopt, Option.isSome_none, Bool.false_eq_true,
    if_false]

theorem runSession_cons (i : Nat) (rest : List Nat) (s : GState) :
    runSession (i :: rest) s = runSession rest (playRound i s) := rfl

/-- Driving a session with one answered question per remaining question
finishes it and persists a result whose score is the starting score plus the
number of correct choices. -/
theorem runSession_spec (qs : List Question) :
    ∀ (choices : List Nat) (s : GState), choices ≠ [] →
      s.questions = qs → s.isFinished = false → s.selectedOption = none →
      s.currentIndex + choices.length = qs.length →
      validChoicesB qs s.currentIndex choices = true →
      (runSession choices s).isFinished = true ∧
      (runSession choices s).history =
        appendCapped 50
          (mkGameResultAt s.nowMs s.gameMode s.gameStartTime qs.length
            (s.score + countCorrect qs s.currentIndex choices)) s.history := by
  intro choices
  induction choices with
  | nil => intro s hne; exact absurd rfl hne
  | cons i rest ih =>
    intro s _ hqs hfin hsel hlen hvalid
    subst hqs
    have hidx : s.currentIndex < s.questions.length := by
      simp only [List.length_cons] at hlen; omega
    obtain ⟨q, hq⟩ : ∃ q, s.questions[s.currentIndex]? = some q :=
      ⟨_, List.getElem?_eq_getElem hidx⟩
    have hvalid' : (decide (i < q.options.length)
        && validChoicesB s.questions (s.currentIndex + 1) rest) = true := by
      have h0 := hvalid
      unfold validChoicesB at h0
      rw [hq] at h0
      exact h0
    have hopt_lt : i < q.options.length := by
      have := ((Bool.and_eq_true _ _).mp hvalid').1
      simpa using this
    have hvrest : validChoicesB s.questions (s.currentIndex + 1) rest = true :=
      ((Bool.and_eq_true _ _).mp hvalid').2
    obtain ⟨opt, hopt⟩ : ∃ o, q.options[i]? = some o :=
      ⟨_, List.getElem?_eq_getElem hopt_lt⟩
    have hstep := handleSelect_eq s i q opt hfin hq hsel hopt
    have hcount : countCorrect s.questions s.currentIndex (i :: rest) =
        (if opt.isCorrect
          then 1 else 0)
          + countCorrect s.questions (s.currentIndex + 1) rest := by
      simp only [countCorrect, hq, hopt]
    cases rest with
    | nil =>
      have hnolt : ¬ (s.currentIndex + 1 < s.questions.length) := by
        simp only [List.length_cons, List.length_nil] at hlen; omega
      rw [runSession_cons]
      unfold playRound
      rw [hstep]
      rw [advanceFn_eq _
        { isCorrect := opt.isCorrect, score := s.score } rfl]
      rw [if_neg (by simpa using hnolt)]
      have hsc :
          (if opt.isCorrect = true
            then s.score + 1 else s.score) =
            s.score + countCorrect s.questions s.currentIndex [i] := by
        rw [hcount]
        cases opt.isCorrect <;>
          simp [countCorrect]
      exact ⟨rfl,
        congrArg
          (fun n => appendCapped 50
            (mkGameResultAt s.nowMs s.gameMode s.gameStartTime s.questions.length n)
            s.history) hsc⟩
    | cons i2 rest2 =>
      have hlt : s.currentIndex + 1 < s.questions.length := by
        simp only [List.length_cons] at hlen; omega
      rw [runSession_cons]
      unfold playRound
      rw [hstep]
      rw [advanceFn_eq _
        { isCorrect := opt.isCorrect, score := s.score } rfl]
      rw [if_pos (by simpa using hlt)]
      have hres := ih { s with
          selectedOption := none,
          score := if opt.isCorrect
            then s.score + 1 else s.score,
          feedback := "",
          showFeedback := false,
          isTransitioning := false,
          pending := none,
          currentIndex := s.currentIndex + 1 }
        (by simp) rfl hfin rfl
        (by simp only [List.length_cons] at hlen ⊢; omega) hvrest
      refine ⟨hres.1, ?_⟩
      rw [hres.2]
      have hsc2 :
          (if opt.isCorrect = true
            then s.score + 1 else s.score)
            + countCorrect s.questions (s.currentIndex + 1) (i2 :: rest2) =
            s.score + countCorrect s.questions s.currentIndex (i :: i2 :: rest2) := by
        rw [hcount]
        cases opt.isCorrect <;>
          (simp; try omega)
      exact congrArg
        (fun n => appendCapped 50
          (mkGameResultAt s.nowMs s.gameMode s.gameStartTime s.questions.length n)
          s.history) hsc2

/-- C1: for every session played to the last question (one accepted
`selectAnswer` per question, each followed by its auto-advance), the
persisted `SessionResult` carries a score equal to the number of
`selectAnswer` calls whose chosen option had `isCorrect` true across the
whole session (the last answer included), and its percentage is the half-up
rounding of `100 * score / totalQuestions`. -/
theorem c1_final_session_score (qs : List Question) (choices : List Nat)
    (mode : String) (h0 : List GameResult) (t0 tNow : Nat)
    (hne : choices ≠ []) (hlen : choices.length = qs.length)
    (hvalid : validChoicesB qs 0 choices = true) :
    (runSession choices (mkSessionState qs mode h0 t0 tNow)).isFinished = true ∧
    (runSession choices (mkSessionState qs mode h0 t0 tNow)).history =
      appendCapped 50
        (mkGameResultAt tNow mode (some t0) qs.length (countCorrect qs 0 choices))
        h0 ∧
    (mkGameResultAt tNow mode (some t0) qs.length
      (countCorrect qs 0 choices)).score = countCorrect qs 0 choices ∧
    (mkGameResultAt tNow mode (some t0) qs.length
      (countCorrect qs 0 choices)).percentage =
      roundPercentage (countCorrect qs 0 choices) qs.length := by
  have hq : (mkSessionState qs mode h0 t0 tNow).questions = qs := by
    simp only [mkSessionState, applyModeInit_questions]
  have hf : (mkSessionState qs mode h0 t0 tNow).isFinished = false := by
    simp only [mkSessionState, applyModeInit_isFinished]
  have hsel : (mkSessionState qs mode h0 t0 tNow).selectedOption = none := by
    simp only [mkSessionState, applyModeInit_selectedOption]
  have hci : (mkSessionState qs mode h0 t0 tNow).currentIndex = 0 := by
    simp only [mkSessionState, applyModeInit_currentIndex]
  have hs := runSession_spec qs choices (mkSessionState qs mode h0 t0 tNow)
    hne hq hf hsel (by rw [hci, Nat.zero_add]; exact hlen) (by rw [hci]; exact hvalid)
  refine ⟨hs.1, ?_, rfl, rfl⟩
  rw [hs.2]
  simp only [mkSessionState, applyModeInit_nowMs, applyModeInit_gameMode,
    applyModeInit_gameStartTime, applyModeInit_score, applyModeInit_currentIndex,
    applyModeInit_history, Nat.zero_add]

/-- C1 witness: `staticQuestions` answered correct/correct/wrong/correct/wrong
(choices `[0,0,1,0,1]`) persists score 3 out of 5 with percentage 60. -/
theorem c1_final_session_score_witness :
    (runSession [0, 0, 1, 0, 1]
      (mkSessionState staticQuestions "classic" [] 0 5000)).isFinished = true ∧
    (runSession [0, 0, 1, 0, 1]
      (mkSessionState staticQuestions "classic" [] 0 5000)).history =
      appendCapped 50 (mkGameResultAt 5000 "classic" (some 0) 5 3) [] ∧
    (mkGameResultAt 5000 "classic" (some 0) 5 3).score = 3 ∧
    (mkGameResultAt 5000 "classic" (some 0) 5 3).percentage = 60 :=
  c1_final_session_score staticQuestions [0, 0, 1, 0, 1] "classic" [] 0 5000
    (by decide) (by decide) (by decide)

/-! ### C9: session invariants under the real (uncancelled) timeout semantics -/

/-- Everything the auto-advance continuation of `handleSelect`
(`EnhancedGameScreen.jsx` lines 173-188) reads from the render closure that
scheduled it: the `questions` array and `currentIndex` (used by the guard and
`setCurrentIndex(currentIndex + 1)`), the answer's `isCorrect` and
pre-increment `score` (used for `finalScore`), and the captured
`saveGameResult` callback's own dependencies (`questions.length` is that of
the captured array; `gameMode`; `gameStartTime`). -/
structure ScheduledAdvance where
  questions : List Question
  currentIndex : Nat
  isCorrect : Bool
  score : Nat
  gameMode : String
  gameStartTime : Option Nat
deriving DecidableEq, Repr

/-- The component state together with the list of scheduled auto-advance
`setTimeout` callbacks (`timeouts`, in scheduling order).  No code path ever
calls `clearTimeout` on them — in particular `handleRestart` (lines 192-203)
does not — so a continuation scheduled before a restart stays scheduled and
later fires into the restarted session with its stale captures. -/
structure FState where
  questions : List Question
  currentIndex : Nat
  score : Nat
  selectedOption : Option Nat
  isFinished : Bool
  feedback : String
  showFeedback : Bool
  isTransitioning : Bool
  timeouts : List ScheduledAdvance
  modeSettings : ModeSettings
  timeLeft : Nat
  totalTime : Nat
  gameMode : String
  gameStartTime : Option Nat
  nowMs : Nat
  history : List GameResult
deriving DecidableEq, Repr

/-- The mode-initialization effect (`initializeGameMode`, lines 41-86) on the
full state. -/
def applyModeInitF (s : FState) : FState :=
  let s1 := { s with modeSettings := initializeGameMode s.gameMode }
  match modeTimerReset s.gameMode with
  | some (tl, tt) => { s1 with timeLeft := tl, totalTime := tt }
  | none => s1

/-- A freshly mounted session in the full model (initial `useState` values,
lines 17-38, plus the mount effect of lines 113-117). -/
def initF (rndQ : Nat → Nat) (rndO : Nat → Nat → Nat) (mode : String)
    (h0 : List GameResult) (t0 tNow : Nat) : FState :=
  applyModeInitF
    { questions := getShuffledQuestions rndQ rndO, currentIndex := 0, score := 0,
      selectedOption := none, isFinished := false, feedback := "",
      showFeedback := false, isTransitioning := false, timeouts := [],
      modeSettings :=
        { timeLimit := none, showTimer := false, autoAdvance := true,
          feedbackDuration := 1800, questionTime := none },
      timeLeft := 0, totalTime := 0, gameMode := mode,
      gameStartTime := some t0, nowMs := tNow, history := h0 }

/-- A click on answer option `optionIndex` in the full model: the same guards
and updates as `handleSelect`, except that the scheduled continuation is
appended to the list of outstanding timeouts (the previously scheduled ones
keep running). -/
def selectF (optionIndex : Nat) (s : FState) : FState :=
  if s.isFinished then s
  else
    match s.questions[s.currentIndex]? with
    | none => s
    | some q =>
      if s.selectedOption.isSome then s
      else
        match q.options[optionIndex]? with
        | none => s
        | some opt =>
          { s with
            selectedOption := some optionIndex,
            score := if opt.isCorrect then s.score + 1 else s.score,
            feedback := if opt.isCorrect then "Correct! Amazing!"
                        else "Wrong Answer!",
            showFeedback := true,
            timeouts := s.timeouts ++
              [{ questions := s.questions, currentIndex := s.currentIndex,
                 isCorrect := opt.isCorrect, score := s.score,
                 gameMode := s.gameMode, gameStartTime := s.gameStartTime }] }

/-- The `k`-th outstanding auto-advance continuation firing
(`EnhancedGameScreen.jsx` lines 173-188), exactly as its stale closure wrote
it: the guard and the index written by `setCurrentIndex` use the captured
`currentIndex`/`questions`, and the saved result uses the captured
`saveGameResult` dependencies; the current (`prev =>`-less) state setters hit
whatever session state is live at fire time. -/
def fireTimeout (k : Nat) (s : FState) : FState :=
  match s.timeouts[k]? with
  | none => s
  | some p =>
    if p.currentIndex + 1 < p.questions.length then
      { s with
        currentIndex := p.currentIndex + 1,
        feedback := "",
        showFeedback := false,
        isTransitioning := false,
        selectedOption := none,
        timeouts := s.timeouts.eraseIdx k }
    else
      { s with
        isTransitioning := true,
        history := appendCapped 50
          (mkGameResultAt s.nowMs p.gameMode p.gameStartTime p.questions.length
            (if p.isCorrect then p.score + 1 else p.score)) s.history,
        isFinished := true,
        timeouts := s.timeouts.eraseIdx k }

/-- One firing of the countdown interval (lines 120-134) on the full state. -/
def tickF (s : FState) : FState :=
  if s.modeSettings.timeLimit.isSome && decide (0 < s.timeLeft)
      && !s.isFinished then
    if s.timeLeft ≤ 1 then { s with isFinished := true, timeLeft := 0 }
    else { s with timeLeft := s.timeLeft - 1 }
  else s

/-- One firing of the speed-mode count-up interval (lines 137-145):
`setTimeLeft(Math.floor((Date.now() - gameStartTime) / 1000))`, armed while
in `speed` mode, unfinished and with a start time set. -/
def speedTickF (now : Nat) (s : FState) : FState :=
  if s.gameMode = "speed" && !s.isFinished && s.gameStartTime.isSome then
    { s with timeLeft := (now - s.gameStartTime.getD 0) / 1000 }
  else s

/-- `handleRestart` (lines 192-203): reset the game state, draw a fresh
shuffled question set, restart the clock and re-apply the mode settings.
The scheduled `setTimeout` continuations are NOT cancelled — `handleRestart`
contains no `clearTimeout` — so `timeouts` is left untouched. -/
def restartF (rndQ : Nat → Nat) (rndO : Nat → Nat → Nat) (tRestart : Nat)
    (s : FState) : FState :=
  applyModeInitF
    { s with
      currentIndex := 0, score := 0, feedback := "", isFinished := false,
      showFeedback := false, isTransitioning := false, selectedOption := none,
      questions := getShuffledQuestions rndQ rndO,
      gameStartTime := some tRestart }

/-- The mount effect re-running on a `gameMode` URL-parameter change (lines
113-117): re-resolve the mode settings, draw fresh questions, restart the
clock.  Index, score, selection and scheduled timeouts are untouched. -/
def modeChangeF (newMode : String) (rndQ : Nat → Nat) (rndO : Nat → Nat → Nat)
    (tStart : Nat) (s : FState) : FState :=
  applyModeInitF
    { s with
      gameMode := newMode,
      questions := getShuffledQuestions rndQ rndO,
      gameStartTime := some tStart }

/-- `n` firings of the countdown interval on the full state. -/
def ticksF : Nat → FState → FState
  | 0, s => s
  | n + 1, s => ticksF n (tickF s)

/-- The states the component can be in: freshly mounted, or reached by a
click, the firing of any outstanding auto-advance, a countdown tick, a
speed-mode count-up tick, a restart, or a mode change. -/
inductive ReachableF : FState → Prop where
  | init (rndQ : Nat → Nat) (rndO : Nat → Nat → Nat) (mode : String)
      (h0 : List GameResult) (t0 tNow : Nat) :
      ReachableF (initF rndQ rndO mode h0 t0 tNow)
  | select {s : FState} (i : Nat) (h : ReachableF s) : ReachableF (selectF i s)
  | fire {s : FState} (k : Nat) (h : ReachableF s) : ReachableF (fireTimeout k s)
  | tick {s : FState} (h : ReachableF s) : ReachableF (tickF s)
  | speedTick {s : FState} (now : Nat) (h : ReachableF s) :
      ReachableF (speedTickF now s)
  | restart {s : FState} (rndQ : Nat → Nat) (rndO : Nat → Nat → Nat)
      (tRestart : Nat) (h : ReachableF s) :
      ReachableF (restartF rndQ rndO tRestart s)
  | modeChange {s : FState} (newMode : String) (rndQ : Nat → Nat)
      (rndO : Nat → Nat → Nat) (tStart : Nat) (h : ReachableF s) :
      ReachableF (modeChangeF newMode rndQ rndO tStart s)

/-- The same transition system restricted to the executions in which every
restart happens with no auto-advance continuation outstanding — i.e. the
executions in which the missing `clearTimeout` of `handleRestart` has nothing
to cancel, which is also the behaviour a cancel-on-restart implementation
would give every execution. -/
inductive ReachableC : FState → Prop where
  | init (rndQ : Nat → Nat) (rndO : Nat → Nat → Nat) (mode : String)
      (h0 : List GameResult) (t0 tNow : Nat) :
      ReachableC (initF rndQ rndO mode h0 t0 tNow)
  | select {s : FState} (i : Nat) (h : ReachableC s) : ReachableC (selectF i s)
  | fire {s : FState} (k : Nat) (h : ReachableC s) : ReachableC (fireTimeout k s)
  | tick {s : FState} (h : ReachableC s) : ReachableC (tickF s)
  | speedTick {s : FState} (now : Nat) (h : ReachableC s) :
      ReachableC (speedTickF now s)
  | restart {s : FState} (rndQ : Nat → Nat) (rndO : Nat → Nat → Nat)
      (tRestart : Nat) (hnp : s.timeouts = []) (h : ReachableC s) :
      ReachableC (restartF rndQ rndO tRestart s)
  | modeChange {s : FState} (newMode : String) (rndQ : Nat → Nat)
      (rndO : Nat → Nat → Nat) (tStart : Nat) (h : ReachableC s) :
      ReachableC (modeChangeF newMode rndQ rndO tStart s)

theorem reachableF_ticks {s : FState} (n : Nat) (h : ReachableF s) :
    ReachableF (ticksF n s) := by
  induction n generalizing s with
  | zero => exact h
  | succ n ih => exact ih (ReachableF.tick h)

/-- A concrete execution of the `timed` session: answer the first question a
moment before the countdown expires, hit Play Again on the Time's Up screen,
and keep answering; each stale auto-advance firing re-enables the buttons at
an index it rewinds, so the same question scores repeatedly.  All selections
hit the correct option of the question on screen; all firings take the
oldest outstanding timeout, matching real timer order. -/
def cexState : FState :=
  fireTimeout 0 (selectF 0 (fireTimeout 0 (selectF 0 (fireTimeout 0
    (selectF 0 (fireTimeout 0 (selectF 0 (restartF (fun i => i) (fun _ i => i)
      100 (tickF (selectF 0 (ticksF 59
        (initF (fun i => i) (fun _ i => i) "timed" [] 0 0))))))))))))

theorem applyModeInitF_questions (s : FState) :
    (applyModeInitF s).questions = s.questions := by
  unfold applyModeInitF; split <;> rfl

theorem applyModeInitF_currentIndex (s : FState) :
    (applyModeInitF s).currentIndex = s.currentIndex := by
  unfold applyModeInitF; split <;> rfl

theorem applyModeInitF_score (s : FState) :
    (applyModeInitF s).score = s.score := by
  unfold applyModeInitF; split <;> rfl

theorem applyModeInitF_selectedOption (s : FState) :
    (applyModeInitF s).selectedOption = s.selectedOption := by
  unfold applyModeInitF; split <;> rfl

theorem applyModeInitF_isFinished (s : FState) :
    (applyModeInitF s).isFinished = s.isFinished := by
  unfold applyModeInitF; split <;> rfl

theorem applyModeInitF_timeouts (s : FState) :
    (applyModeInitF s).timeouts = s.timeouts := by
  unfold applyModeInitF; split <;> rfl

/-- Computation rules for `fireTimeout`. -/
theorem fireTimeout_none (s : FState) (k : Nat) (hk : s.timeouts[k]? = none) :
    fireTimeout k s = s := by
  unfold fireTimeout; rw [hk]

/-- Computation rule for `fireTimeout` on an outstanding continuation. -/
theorem fireTimeout_eq (s : FState) (k : Nat) (p : ScheduledAdvance)
    (hk : s.timeouts[k]? = some p) :
    fireTimeout k s =
      if p.currentIndex + 1 < p.questions.length then
        { s with
          currentIndex := p.currentIndex + 1,
          feedback := "",
          showFeedback := false,
          isTransitioning := false,
          selectedOption := none,
          timeouts := s.timeouts.eraseIdx k }
      else
        { s with
          isTransitioning := true,
          history := appendCapped 50
            (mkGameResultAt s.nowMs p.gameMode p.gameStartTime
              p.questions.length
              (if p.isCorrect then p.score + 1 else p.score)) s.history,
          isFinished := true,
          timeouts := s.timeouts.eraseIdx k } := by
  unfold fireTimeout; rw [hk]

/-- The index-bound invariant of the full model: question lists are always
the five shuffled static questions, the index stays inside them, and every
outstanding continuation captured a five-question list. -/
def FInv (s : FState) : Prop :=
  s.questions.length = 5 ∧
  s.currentIndex < s.questions.length ∧
  ∀ p ∈ s.timeouts, p.questions.length = 5

theorem reachableF_inv {s : FState} (h : ReachableF s) : FInv s := by
  induction h with
  | init rndQ rndO mode h0 t0 tNow =>
    unfold FInv initF
    rw [applyModeInitF_questions, applyModeInitF_currentIndex,
      applyModeInitF_timeouts]
    refine ⟨getShuffledQuestions_length rndQ rndO, ?_, ?_⟩
    · show 0 < (getShuffledQuestions rndQ rndO).length
      rw [getShuffledQuestions_length]; omega
    · intro p hp; simp at hp
  | select i h ih =>
    rename_i s
    unfold selectF
    split
    · exact ih
    · split
      · exact ih
      · split
        · exact ih
        · split
          · exact ih
          · obtain ⟨ih1, ih2, ih3⟩ := ih
            refine ⟨ih1, ih2, ?_⟩
            intro p hp
            simp only [List.mem_append, List.mem_singleton] at hp
            rcases hp with hp | hp
            · exact ih3 p hp
            · subst hp; exact ih1
  | fire k h ih =>
    rename_i s
    cases hk : s.timeouts[k]? with
    | none => rw [fireTimeout_none s k hk]; exact ih
    | some p =>
      rw [fireTimeout_eq s k p hk]
      obtain ⟨ih1, ih2, ih3⟩ := ih
      have hpmem : p ∈ s.timeouts := List.getElem?_mem hk
      have hp5 : p.questions.length = 5 := ih3 p hpmem
      have herase : ∀ p2 ∈ s.timeouts.eraseIdx k, p2.questions.length = 5 :=
        fun p2 hp2 => ih3 p2 (List.eraseIdx_subset s.timeouts k hp2)
      by_cases hguard : p.currentIndex + 1 < p.questions.length
      · rw [if_pos hguard]
        refine ⟨ih1, ?_, herase⟩
        show p.currentIndex + 1 < s.questions.length
        rw [ih1, ← hp5]
        exact hguard
      · rw [if_neg hguard]
        exact ⟨ih1, ih2, herase⟩
  | tick h ih =>
    rename_i s
    unfold tickF
    split
    · split
      · exact ih
      · exact ih
    · exact ih
  | speedTick now h ih =>
    rename_i s
    unfold speedTickF
    split
    · exact ih
    · exact ih
  | restart rndQ rndO tRestart h ih =>
    rename_i s
    unfold restartF FInv
    rw [applyModeInitF_questions, applyModeInitF_currentIndex,
      applyModeInitF_timeouts]
    refine ⟨getShuffledQuestions_length rndQ rndO, ?_, ?_⟩
    · show 0 < (getShuffledQuestions rndQ rndO).length
      rw [getShuffledQuestions_length]; omega
    · exact ih.2.2
  | modeChange newMode rndQ rndO tStart h ih =>
    rename_i s
    unfold modeChangeF FInv
    rw [applyModeInitF_questions, applyModeInitF_currentIndex,
      applyModeInitF_timeouts]
    obtain ⟨ih1, ih2, ih3⟩ := ih
    refine ⟨getShuffledQuestions_length rndQ rndO, ?_, ih3⟩
    show s.currentIndex < (getShuffledQuestions rndQ rndO).length
    rw [getShuffledQuestions_length, ← ih1]
    exact ih2

/-- The score-bound invariant of the restricted model: while no option is
selected the score is at most the index and nothing is scheduled; the score
never exceeds the index by more than one; the index stays inside the five
questions; and at most one continuation is outstanding, always about the
current question. -/
def CInv (s : FState) : Prop :=
  (s.selectedOption = none → s.score ≤ s.currentIndex ∧ s.timeouts = []) ∧
  s.score ≤ s.currentIndex + 1 ∧
  s.currentIndex < s.questions.length ∧
  s.questions.length = 5 ∧
  s.timeouts.length ≤ 1 ∧
  ∀ p ∈ s.timeouts, p.currentIndex = s.currentIndex ∧ p.questions.length = 5

theorem reachableC_inv {s : FState} (h : ReachableC s) : CInv s := by
  induction h with
  | init rndQ rndO mode h0 t0 tNow =>
    unfold CInv initF
    rw [applyModeInitF_questions, applyModeInitF_currentIndex,
      applyModeInitF_score, applyModeInitF_selectedOption,
      applyModeInitF_timeouts]
    refine ⟨fun _ => ⟨Nat.le_refl 0, rfl⟩, Nat.zero_le 1, ?_,
      getShuffledQuestions_length rndQ rndO, by simp, by simp⟩
    show 0 < (getShuffledQuestions rndQ rndO).length
    rw [getShuffledQuestions_length]; omega
  | select i h ih =>
    rename_i s
    unfold selectF
    split
    · exact ih
    · split
      · exact ih
      · split
        · exact ih
        · split
          · exact ih
          · rename_i q hq hsel hx opt hopt
            obtain ⟨ih1, ih2, ih3, ih4, ih5, ih6⟩ := ih
            have hnone : s.selectedOption = none :=
              Option.not_isSome_iff_eq_none.mp (by simpa using hsel)
            obtain ⟨hsc, hto⟩ := ih1 hnone
            refine ⟨fun hcon => by simp at hcon, ?_, ih3, ih4, ?_, ?_⟩
            · show (if opt.isCorrect then s.score + 1 else s.score) ≤
                s.currentIndex + 1
              split
              · exact Nat.succ_le_succ hsc
              · exact ih2
            · show (s.timeouts ++ [_]).length ≤ 1
              rw [hto]
              simp
            · intro p hp
              rw [hto] at hp
              simp only [List.nil_append, List.mem_singleton] at hp
              subst hp
              exact ⟨rfl, ih4⟩
  | fire k h ih =>
    rename_i s
    cases hk : s.timeouts[k]? with
    | none => rw [fireTimeout_none s k hk]; exact ih
    | some p =>
      rw [fireTimeout_eq s k p hk]
      obtain ⟨ih1, ih2, ih3, ih4, ih5, ih6⟩ := ih
      have hpmem : p ∈ s.timeouts := List.getElem?_mem hk
      obtain ⟨hpidx, hpq5⟩ := ih6 p hpmem
      have hklt : k < s.timeouts.length := by
        by_contra hge
        rw [List.getElem?_eq_none (Nat.le_of_not_lt hge)] at hk
        cases hk
      have herase : s.timeouts.eraseIdx k = [] := by
        apply List.eq_nil_of_length_eq_zero
        have := List.length_eraseIdx_of_lt hklt
        omega
      by_cases hguard : p.currentIndex + 1 < p.questions.length
      · rw [if_pos hguard]
        refine ⟨fun _ => ⟨?_, herase⟩, ?_, ?_, ih4, ?_, ?_⟩
        · show s.score ≤ p.currentIndex + 1
          rw [hpidx]; exact ih2
        · show s.score ≤ p.currentIndex + 1 + 1
          rw [hpidx]; exact Nat.le_succ_of_le ih2
        · show p.currentIndex + 1 < s.questions.length
          rw [ih4, ← hpq5]; exact hguard
        · show (s.timeouts.eraseIdx k).length ≤ 1
          rw [herase]; simp
        · intro p2 hp2
          rw [herase] at hp2
          simp at hp2
      · rw [if_neg hguard]
        refine ⟨fun hnone => ⟨(ih1 hnone).1, herase⟩, ih2, ih3, ih4, ?_, ?_⟩
        · show (s.timeouts.eraseIdx k).length ≤ 1
          rw [herase]; simp
        · intro p2 hp2
          rw [herase] at hp2
          simp at hp2
  | tick h ih =>
    rename_i s
    unfold tickF
    split
    · split
      · exact ih
      · exact ih
    · exact ih
  | speedTick now h ih =>
    rename_i s
    unfold speedTickF
    split
    · exact ih
    · exact ih
  | restart rndQ rndO tRestart hnp h ih =>
    rename_i s
    unfold restartF CInv
    rw [applyModeInitF_questions, applyModeInitF_currentIndex,
      applyModeInitF_score, applyModeInitF_selectedOption,
      applyModeInitF_timeouts]
    refine ⟨fun _ => ⟨Nat.le_refl 0, hnp⟩, Nat.zero_le 1, ?_,
      getShuffledQuestions_length rndQ rndO, ?_, ?_⟩
    · show 0 < (getShuffledQuestions rndQ rndO).length
      rw [getShuffledQuestions_length]; omega
    · show s.timeouts.length ≤ 1
      rw [hnp]; simp
    · intro p hp
      have hp2 : p ∈ s.timeouts := hp
      rw [hnp] at hp2
      simp at hp2
  | modeChange newMode rndQ rndO tStart h ih =>
    rename_i s
    unfold modeChangeF CInv
    rw [applyModeInitF_questions, applyModeInitF_currentIndex,
      applyModeInitF_score, applyModeInitF_selectedOption,
      applyModeInitF_timeouts]
    obtain ⟨ih1, ih2, ih3, ih4, ih5, ih6⟩ := ih
    refine ⟨ih1, ih2, ?_, getShuffledQuestions_length rndQ rndO, ih5, ih6⟩
    show s.currentIndex < (getShuffledQuestions rndQ rndO).length
    rw [getShuffledQuestions_length, ← ih4]
    exact ih3

set_option maxRecDepth 10000 in
/-- C9 counterexample: the claimed invariant `score <= currentIndex + 1`
fails at a reachable point of the program.  `handleRestart` never cancels the
`setTimeout` chain scheduled by `handleSelect` (only the `setInterval`
effects have cleanups), so in `timed` mode a question answered just before
the countdown expires leaves its auto-advance outstanding across Time's Up
and Play Again; once two continuations coexist, each firing rewinds
`currentIndex` to its stale captured index and re-enables the buttons, so
the question on screen can be answered — and scored — repeatedly.  The
concrete trace `cexState` reaches `score = 4` with `currentIndex = 2` in an
unfinished session, and every step is a constructor of `ReachableF`. -/
theorem c9_score_invariant_counterexample :
    ReachableF cexState ∧ cexState.isFinished = false ∧
    cexState.currentIndex = 2 ∧ cexState.score = 4 ∧
    ¬ (cexState.score ≤ cexState.currentIndex + 1) := by
  refine ⟨?_, by decide, by decide, by decide, by decide⟩
  exact ReachableF.fire 0 (ReachableF.select 0 (ReachableF.fire 0
    (ReachableF.select 0 (ReachableF.fire 0 (ReachableF.select 0
      (ReachableF.fire 0 (ReachableF.select 0 (ReachableF.restart _ _ 100
        (ReachableF.tick (ReachableF.select 0 (reachableF_ticks 59
          (ReachableF.init (fun i => i) (fun _ i => i) "timed" [] 0 0))))))))))))

/-- C9 (amended): `0 <= currentIndex < totalQuestions` holds at every
reachable point of every session while it is not finished, under the real
uncancelled-timeout semantics (`ReachableF`) — stale firings included; and
`score <= currentIndex + 1` holds at every point of every execution in which
each restart happens with no auto-advance continuation outstanding
(`ReachableC`) — equivalently, whenever the cancel-on-restart that
`handleRestart` omits would have had nothing to cancel.  The score bound
cannot be extended to stale firings: see the counterexample. -/
theorem c9_invariants_amended :
    (∀ s : FState, ReachableF s → 0 ≤ s.currentIndex ∧
      (s.isFinished = false → s.currentIndex < s.questions.length)) ∧
    (∀ s : FState, ReachableC s → s.score ≤ s.currentIndex + 1 ∧
      (s.isFinished = false → s.currentIndex < s.questions.length)) := by
  constructor
  · intro s h
    obtain ⟨_, h2, _⟩ := reachableF_inv h
    exact ⟨Nat.zero_le _, fun _ => h2⟩
  · intro s h
    obtain ⟨_, h2, h3, _⟩ := reachableC_inv h
    exact ⟨h2, fun _ => h3⟩

/-- C9 witness: both amended invariant bundles evaluated on a concrete
reachable state (a fresh classic session). -/
theorem c9_invariants_amended_witness :
    (0 ≤ (initF (fun i => i) (fun _ i => i) "classic" [] 0 0).currentIndex ∧
      ((initF (fun i => i) (fun _ i => i) "classic" [] 0 0).isFinished = false →
        (initF (fun i => i) (fun _ i => i) "classic" [] 0 0).currentIndex <
          (initF (fun i => i) (fun _ i => i) "classic" [] 0 0).questions.length)) ∧
    ((initF (fun i => i) (fun _ i => i) "classic" [] 0 0).score ≤
        (initF (fun i => i) (fun _ i => i) "classic" [] 0 0).currentIndex + 1 ∧
      ((initF (fun i => i) (fun _ i => i) "classic" [] 0 0).isFinished = false →
        (initF (fun i => i) (fun _ i => i) "classic" [] 0 0).currentIndex <
          (initF (fun i => i) (fun _ i => i) "classic" [] 0 0).questions.length)) :=
  ⟨c9_invariants_amended.1 _
    (ReachableF.init (fun i => i) (fun _ i => i) "classic" [] 0 0),
   c9_invariants_amended.2 _
    (ReachableC.init (fun i => i) (fun _ i => i) "classic" [] 0 0)⟩
